import Mathlib

/-!
Verification development for the Gift Castle escrow bot (`src/server.js`).

The escrow core (balances ledger, deal store, deal-id sequence generator and
the five lifecycle operations) is embedded shallowly:

* JavaScript numbers are modelled as exact rationals `ℚ`; the pervasive
  `Number(x.toFixed(8))` idiom is modelled by `round8`, rounding half away
  from zero at the eighth decimal place.
* The JSON objects `balances`, `deals` and `logs` are modelled as
  association lists with unique keys; `obj[k]` is `getKey`, `obj[k] = v`
  is `setKey`, `Number(obj[k] || 0)` is `getBal`.
* Each Telegram handler that mutates escrow state becomes a function on
  `State`; the error branches (which in the source answer a callback and
  return before any mutation) become `Except Err` errors.
-/

namespace GiftCastle

/-- Reducible addition on `ℚ` (equal to `+` by `qAdd_eq`; written through
`mkRat` so that concrete instances evaluate by `decide`). -/
def qAdd (a b : ℚ) : ℚ := mkRat (a.num * b.den + b.num * a.den) (a.den * b.den)

/-- Reducible subtraction on `ℚ` (equal to `-` by `qSub_eq`). -/
def qSub (a b : ℚ) : ℚ := mkRat (a.num * b.den - b.num * a.den) (a.den * b.den)

/-- Model of `Number(x.toFixed(8))`: round half away from zero at the
eighth decimal place, on exact rationals.  For `q = n/d ≥ 0` the rounded
numerator is `⌊n·10⁸/d + 1/2⌋ = (2·n·10⁸ + d) / (2·d)` in integers; a
negative number is rounded through its absolute value. -/
def round8 (q : ℚ) : ℚ :=
  if 0 ≤ q.num then
    mkRat (((2 * q.num.toNat * 100000000 + q.den) / (2 * q.den) : ℕ) : ℤ) 100000000
  else
    -mkRat (((2 * (-q.num).toNat * 100000000 + q.den) / (2 * q.den) : ℕ) : ℤ) 100000000

/-- An amount at fixed-point 8-decimal precision: its reduced denominator
divides `10⁸`. -/
def is8dec (q : ℚ) : Prop := q.den ∣ 100000000

instance (q : ℚ) : Decidable (is8dec q) := by unfold is8dec; infer_instance

/-- The persisted `users._seq` counter. -/
structure SeqCounter where
  letter : Char
  number : Nat
deriving Repr, DecidableEq

/-- `users._seq` as initialised by the source: `{ letter: "A", number: 7342 }`. -/
def initialSeq : SeqCounter := ⟨'A', 7342⟩

/-- Embedding of `nextDealId` from `src/server.js`: return `"#<letter><number>"`
for the current counter, then advance `number`; past `9999` move to the next
letter with `number = 1000`, and past `'Z'` wrap the letter to `'A'`. -/
def nextDealId (c : SeqCounter) : String × SeqCounter :=
  let id := s!"#{c.letter}{c.number}"
  let number := c.number + 1
  if number > 9999 then
    let nextChar := Char.ofNat (c.letter.toNat + 1)
    if nextChar > 'Z' then (id, ⟨'A', 1000⟩)
    else (id, ⟨nextChar, 1000⟩)
  else (id, ⟨c.letter, number⟩)

/-- The list of ids produced by `n` successive calls of `nextDealId`
starting from counter `c`. -/
def idsFrom (c : SeqCounter) : Nat → List String
  | 0 => []
  | n + 1 =>
    let p := nextDealId c
    p.1 :: idsFrom p.2 n

/-- Executable strict lexicographic comparison on char lists. -/
def charListLtB : List Char → List Char → Bool
  | [], [] => false
  | [], _ :: _ => true
  | _ :: _, [] => false
  | a :: as, b :: bs => if a < b then true else if b < a then false else charListLtB as bs

/-- Executable check that a list of strings is strictly increasing. -/
def chainIncB : List String → Bool
  | [] => true
  | [_] => true
  | a :: b :: t => charListLtB a.toList b.toList && chainIncB (b :: t)

/-! ### Escrow state: balances, deals, logs -/

/-- A deal record as stored in `deals.json`. -/
structure Deal where
  id : String
  seller : Nat
  buyer : Option Nat := none
  title : String
  desc : String
  dealType : String
  price : ℚ
  status : String
  locked : ℚ
  created_at : Option String := none
  locked_at : Option String := none
  sent_at : Option String := none
  completed_at : Option String := none
deriving Repr, DecidableEq

/-- A completed-deal record as stored in `logs.json`. -/
structure LogEntry where
  id : String
  seller : Nat
  buyer : Nat
  amount : ℚ
  title : String
  desc : String
  completed_at : String
deriving Repr, DecidableEq

/-- The mutable escrow data: the `balances`, `deals` and `logs` JSON objects
plus the persisted id sequence counter.  JSON objects are association lists
with unique keys. -/
structure State where
  balances : List (Nat × ℚ)
  deals : List (String × Deal)
  logs : List (String × LogEntry)
  seq : SeqCounter
deriving Repr, DecidableEq

/-- The contents of the freshly created data files. -/
def initialState : State := ⟨[], [], [], initialSeq⟩

/-- JSON object read `obj[k]`. -/
def getKey {α β : Type} [DecidableEq α] (k : α) : List (α × β) → Option β
  | [] => none
  | (a, b) :: t => if a = k then some b else getKey k t

/-- Remove the entry with key `k` (a JSON object holds at most one). -/
def eraseKey {α β : Type} [DecidableEq α] (k : α) : List (α × β) → List (α × β)
  | [] => []
  | p :: t => if p.1 = k then eraseKey k t else p :: eraseKey k t

/-- JSON object write `obj[k] = v`. -/
def setKey {α β : Type} [DecidableEq α] (m : List (α × β)) (k : α) (v : β) :
    List (α × β) :=
  (k, v) :: eraseKey k m

/-- Sum of `f` over the values of an object. -/
def sumBy {α β : Type} (f : β → ℚ) (m : List (α × β)) : ℚ :=
  (m.map (fun p => f p.2)).sum

/-- `Number(balances[id] || 0)`. -/
def getBal (s : State) (id : Nat) : ℚ := (getKey id s.balances).getD 0

/-- `Σ(balances) + Σ(deal.locked)`: total funds in the system. -/
def total (s : State) : ℚ :=
  sumBy (fun q => q) s.balances + sumBy Deal.locked s.deals

/-- Errors surfaced by the handlers (each corresponds to an alert answered
before any mutation in the source). -/
inductive Err where
  | notFound
  | invalidState
  | insufficientFunds
  | noBuyer
  | validationError
deriving Repr, DecidableEq

instance {eps alpha : Type} [DecidableEq eps] [DecidableEq alpha] :
    DecidableEq (Except eps alpha)
  | .error e, .error f =>
    decidable_of_iff (e = f) ⟨fun h => by rw [h], fun h => by injection h⟩
  | .error _, .ok _ => isFalse (fun h => Except.noConfusion h)
  | .ok _, .error _ => isFalse (fun h => Except.noConfusion h)
  | .ok a, .ok b =>
    decidable_of_iff (a = b) ⟨fun h => by rw [h], fun h => by injection h⟩

/-! ### Operations

Each function embeds the escrow-mutating part of one handler of
`src/server.js`; the wall-clock strings `new Date().toISOString()` are
passed in as a `now` argument. -/

/-- Embedding of the `num_done` branch of the price keypad handler: validate
the entered price, draw a fresh id from the sequence and store a new `open`
deal (`deals[id] = deal`). -/
def createDeal (s : State) (seller : Nat) (dealType title desc : String)
    (priceVal : ℚ) (now : String) : Except Err State :=
  if priceVal ≤ 0 then .error .validationError
  else
    let p := s.seq
    let idc := nextDealId p
    let d : Deal :=
      { id := idc.1, seller := seller, buyer := none, title := title,
        desc := desc, dealType := dealType, price := round8 priceVal,
        status := "open", locked := 0, created_at := some now }
    .ok { s with deals := setKey s.deals idc.1 d, seq := idc.2 }

/-- Embedding of the `buy_` callback handler: requires the deal to exist and
be `open` and the buyer's balance to cover the price; debits the buyer and
locks the price in the deal. -/
def buy (s : State) (dealId : String) (buyerId : Nat) (now : String) :
    Except Err State :=
  match getKey dealId s.deals with
  | none => .error .notFound
  | some deal =>
    if deal.status ≠ "open" then .error .invalidState
    else
      let bal := getBal s buyerId
      let price := deal.price
      if bal < price then .error .insufficientFunds
      else
        let deal' := { deal with
          buyer := some buyerId
          locked := price
          status := "in_progress"
          locked_at := some now }
        .ok { s with
          balances := setKey s.balances buyerId (round8 (qSub bal price))
          deals := setKey s.deals dealId deal' }

/-- Embedding of the `seller_sent_` callback handler: the source checks only
that the deal exists, then unconditionally sets `status = "sent_to_support"`
(the `actorId` is never consulted). -/
def markSent (s : State) (dealId : String) (actorId : Nat) (now : String) :
    Except Err State :=
  match getKey dealId s.deals with
  | none => .error .notFound
  | some deal =>
    let deal' := { deal with
      status := "sent_to_support"
      sent_at := some now }
    .ok { s with deals := setKey s.deals dealId deal' }

/-- Embedding of the `buyer_received_` callback handler: the source checks
only that the deal exists and has a recorded buyer (the `actorId` and the
status are never consulted), then credits the seller with `deal.locked`,
zeroes `locked`, sets `status = "done"` and writes the log entry.  Returns
the credited amount alongside the new state. -/
def confirmReceived (s : State) (dealId : String) (actorId : Nat) (now : String) :
    Except Err (State × ℚ) :=
  match getKey dealId s.deals with
  | none => .error .notFound
  | some deal =>
    match deal.buyer with
    | none => .error .noBuyer
    | some buyerId =>
      let sellerId := deal.seller
      let amount := deal.locked
      let balances' := setKey s.balances sellerId (round8 (qAdd (getBal s sellerId) amount))
      let deal' := { deal with
        status := "done"
        completed_at := some now
        locked := 0 }
      let entry : LogEntry :=
        { id := dealId
          seller := sellerId
          buyer := buyerId
          amount := amount
          title := deal.title
          desc := deal.desc
          completed_at := now }
      .ok ({ s with
        balances := balances'
        deals := setKey s.deals dealId deal'
        logs := setKey s.logs dealId entry }, amount)

/-- Embedding of the `buyer_problem_` callback handler: the source only sends
notifications; beyond the existence check it performs no state change at all. -/
def reportProblem (s : State) (dealId : String) (actorId : Nat) :
    Except Err State :=
  match getKey dealId s.deals with
  | none => .error .notFound
  | some _ => .ok s

/-- Embedding of the `/givebalance` text command: silently ignored unless the
caller is the owner, otherwise unconditionally adds `amt` (any rational,
including a negative one) to the target's balance. -/
def givebalance (s : State) (callerId ownerId target : Nat) (amt : ℚ) : State :=
  if callerId ≠ ownerId then s
  else { s with balances := setKey s.balances target (round8 (qAdd (getBal s target) amt)) }

/-- One escrow-mutating user action. -/
inductive Op where
  | createDeal (seller : Nat) (dealType title desc : String) (priceVal : ℚ) (now : String)
  | buy (dealId : String) (buyerId : Nat) (now : String)
  | markSent (dealId : String) (actorId : Nat) (now : String)
  | confirmReceived (dealId : String) (actorId : Nat) (now : String)
  | reportProblem (dealId : String) (actorId : Nat)
  | adminCredit (callerId target : Nat) (amt : ℚ)
deriving Repr, DecidableEq

/-- Whether an operation is the administrative credit command. -/
def Op.isAdmin : Op → Bool
  | .adminCredit _ _ _ => true
  | _ => false

/-- Apply one operation; a failing operation leaves the state unchanged, as
every error branch in the source answers the callback before any mutation. -/
def step (ownerId : Nat) (s : State) : Op → State
  | .createDeal seller dealType title desc priceVal now =>
    match createDeal s seller dealType title desc priceVal now with
    | .ok s' => s' | .error _ => s
  | .buy dealId buyerId now =>
    match buy s dealId buyerId now with
    | .ok s' => s' | .error _ => s
  | .markSent dealId actorId now =>
    match markSent s dealId actorId now with
    | .ok s' => s' | .error _ => s
  | .confirmReceived dealId actorId now =>
    match confirmReceived s dealId actorId now with
    | .ok p => p.1 | .error _ => s
  | .reportProblem dealId actorId =>
    match reportProblem s dealId actorId with
    | .ok s' => s' | .error _ => s
  | .adminCredit callerId target amt => givebalance s callerId ownerId target amt

/-- Apply a sequence of operations. -/
def run (ownerId : Nat) (s : State) (ops : List Op) : State :=
  ops.foldl (step ownerId) s

/-! ### Well-formedness -/

/-- A JSON object never has two entries under the same key. -/
def keysNodup {α β : Type} (m : List (α × β)) : Prop := (m.map Prod.fst).Nodup

instance {α β : Type} [DecidableEq α] (m : List (α × β)) : Decidable (keysNodup m) := by
  unfold keysNodup; infer_instance

/-- Per-deal data invariant maintained by the handlers: amounts are exact
8-decimal values, non-negative, and an `open` deal holds no locked funds. -/
def DealOK (d : Deal) : Prop :=
  is8dec d.price ∧ is8dec d.locked ∧ 0 ≤ d.price ∧ 0 ≤ d.locked ∧
    (d.status = "open" → d.locked = 0)

instance (d : Deal) : Decidable (DealOK d) := by unfold DealOK; infer_instance

/-- Well-formed escrow state: unique keys, 8-decimal balances and
`DealOK` deals. -/
def wf (s : State) : Prop :=
  keysNodup s.balances ∧ keysNodup s.deals ∧
    (∀ p ∈ s.balances, is8dec p.2) ∧ ∀ p ∈ s.deals, DealOK p.2

instance (s : State) : Decidable (wf s) := by unfold wf; infer_instance

/-- All available balances are non-negative. -/
def nonneg (s : State) : Prop := ∀ p ∈ s.balances, 0 ≤ p.2

instance (s : State) : Decidable (nonneg s) := by unfold nonneg; infer_instance

/-- No administrative credit in the list. -/
def noAdmin (ops : List Op) : Bool := ops.all (fun op => !op.isAdmin)

/-- An operation whose administrative credit amount (if any) is non-negative. -/
def Op.amtOK : Op → Bool
  | .adminCredit _ _ amt => decide (0 ≤ amt)
  | _ => true

/-- The amount of every administrative credit in the list is non-negative. -/
def adminAmtsNonneg (ops : List Op) : Bool := ops.all Op.amtOK

/-- In state `s`, `op` is not a deal creation that would overwrite an
existing deal under an already-used id (sequence-wrap collision). -/
def freshAt (s : State) : Op → Bool
  | .createDeal _ _ _ _ priceVal _ =>
    decide (priceVal ≤ 0) || (getKey (nextDealId s.seq).1 s.deals).isNone
  | _ => true

/-- Every `createDeal` of the sequence that passes price validation draws an
id that is not already a key of the deal store (no sequence-wrap collision). -/
def noCollisionRun (ownerId : Nat) (s : State) : List Op → Bool
  | [] => true
  | op :: rest => freshAt s op && noCollisionRun ownerId (step ownerId s op) rest


/-! ### Concrete states used to instantiate the results -/

/-- An `open` deal: seller `1`, price `12.5` TON. -/
def dealOpen : Deal :=
  { id := "#A7342", seller := 1, buyer := none, title := "Golden Gift",
    desc := "rare", dealType := "NFT", price := mkRat 25 2, status := "open",
    locked := 0, created_at := some "t0" }

/-- A store with one open deal and buyer `2` holding `20` TON. -/
def sOpen : State :=
  { balances := [(2, 20)], deals := [("#A7342", dealOpen)], logs := [],
    seq := ⟨'A', 7343⟩ }

/-- The same store with the seller also funded. -/
def sOpenSeller : State := { sOpen with balances := [(1, 20), (2, 20)] }

/-- The deal after `buy` by `2`: locked `12.5`, `in_progress`. -/
def dealInProgress : Deal := { dealOpen with
  buyer := some 2
  status := "in_progress"
  locked := mkRat 25 2
  locked_at := some "t1" }

/-- The store after `buy` by `2`. -/
def sInProgress : State :=
  { balances := [(2, mkRat 15 2)], deals := [("#A7342", dealInProgress)],
    logs := [], seq := ⟨'A', 7343⟩ }

/-- `sInProgress` with the sequence counter back at the locked deal's own id:
the next `createDeal` reuses `"#A7342"` (the sequence-wrap collision). -/
def sCollide : State := { sInProgress with seq := ⟨'A', 7342⟩ }

/-- The deal after the seller marks it sent. -/
def dealSent : Deal := { dealInProgress with
  status := "sent_to_support"
  sent_at := some "t2" }

/-- The store after `markSent`. -/
def sSent : State := { sInProgress with deals := [("#A7342", dealSent)] }

/-- The deal after the buyer confirms receipt. -/
def dealDone : Deal := { dealSent with
  status := "done"
  locked := 0
  completed_at := some "t3" }

/-- The completion record written at settlement. -/
def logDone : LogEntry :=
  { id := "#A7342", seller := 1, buyer := 2, amount := mkRat 25 2,
    title := "Golden Gift", desc := "rare", completed_at := "t3" }

/-- The store after `confirmReceived`. -/
def sDone : State :=
  { balances := [(1, mkRat 25 2), (2, mkRat 15 2)],
    deals := [("#A7342", dealDone)], logs := [("#A7342", logDone)],
    seq := ⟨'A', 7343⟩ }

/-- A full happy-path operation sequence on `sOpen`. -/
def wOpsC1 : List Op :=
  [.buy "#A7342" 2 "t1", .markSent "#A7342" 1 "t2",
   .confirmReceived "#A7342" 2 "t3", .reportProblem "#A7342" 2,
   .createDeal 1 "NFT" "x" "y" 1 "t4"]

/-- A sequence containing an administrative credit with non-negative amount. -/
def wOpsC7 : List Op := [.adminCredit 1 2 5, .buy "#A7342" 2 "t1"]

/-! ### Lemmas -/

theorem qAdd_eq (a b : ℚ) : qAdd a b = a + b := (Rat.add_def' a b).symm

theorem qSub_eq (a b : ℚ) : qSub a b = a - b := (Rat.sub_def' a b).symm

theorem is8dec_iff {q : ℚ} : is8dec q ↔ ∃ k : ℤ, q = (k : ℚ) / 100000000 := by
  constructor
  · intro h
    obtain ⟨e, he⟩ := h
    have he' : e ≠ 0 := by rintro rfl; omega
    have he0 : (e : ℚ) ≠ 0 := Nat.cast_ne_zero.mpr he'
    refine ⟨q.num * e, ?_⟩
    have hm : (100000000 : ℚ) = (q.den : ℚ) * (e : ℚ) := by exact_mod_cast he
    rw [hm]
    push_cast
    rw [mul_div_mul_right _ _ he0, Rat.num_div_den]
  · rintro ⟨k, rfl⟩
    unfold is8dec
    have h2 : ((k : ℚ) / 100000000) = Rat.divInt k ((100000000 : ℕ) : ℤ) := by
      rw [Rat.divInt_eq_div]; norm_num
    have h3 := Rat.den_dvd k ((100000000 : ℕ) : ℤ)
    rw [h2]
    exact_mod_cast h3

theorem is8dec_add {a b : ℚ} (ha : is8dec a) (hb : is8dec b) : is8dec (a + b) := by
  obtain ⟨ka, hka⟩ := is8dec_iff.mp ha
  obtain ⟨kb, hkb⟩ := is8dec_iff.mp hb
  refine is8dec_iff.mpr ⟨ka + kb, ?_⟩
  rw [hka, hkb, div_add_div_same]
  push_cast
  ring

theorem is8dec_sub {a b : ℚ} (ha : is8dec a) (hb : is8dec b) : is8dec (a - b) := by
  obtain ⟨ka, hka⟩ := is8dec_iff.mp ha
  obtain ⟨kb, hkb⟩ := is8dec_iff.mp hb
  refine is8dec_iff.mpr ⟨ka - kb, ?_⟩
  rw [hka, hkb, div_sub_div_same]
  push_cast
  ring

theorem is8dec_zero : is8dec 0 := by decide

theorem is8dec_neg {q : ℚ} (h : is8dec q) : is8dec (-q) := by
  unfold is8dec at h ⊢
  rwa [Rat.neg_den]

/-- The integer-division core of `round8`: on an exact 8-decimal value the
half-up division recovers the scaled numerator. -/
theorem round8_core {t d e : ℕ} (hd : d ≠ 0) (he : 100000000 = d * e) :
    ((2 * t * 100000000 + d) / (2 * d) : ℕ) = t * e := by
  rw [he]
  have h1 : 2 * t * (d * e) + d = 2 * d * (t * e) + d := by ring
  rw [h1, Nat.mul_add_div (by omega), Nat.div_eq_of_lt (by omega)]
  rfl

theorem mkRat_natCast_div {k m : ℕ} : mkRat (k : ℤ) (m : ℕ) = (k : ℚ) / (m : ℚ) := by
  rw [Rat.mkRat_eq_divInt, Rat.divInt_eq_div]
  norm_num

/-- Both branches of `round8` reduce, on an exact 8-decimal input, to the
unrounded quotient. -/
theorem round8_branch {t d e : ℕ} (hd : d ≠ 0) (he : 100000000 = d * e) :
    mkRat (((2 * t * 100000000 + d) / (2 * d) : ℕ) : ℤ) 100000000 = (t : ℚ) / (d : ℚ) := by
  have he' : e ≠ 0 := by rintro rfl; omega
  have he0 : (e : ℚ) ≠ 0 := Nat.cast_ne_zero.mpr he'
  rw [round8_core hd he, mkRat_natCast_div]
  have hm : ((100000000 : ℕ) : ℚ) = (d : ℚ) * (e : ℚ) := by exact_mod_cast he
  rw [hm]
  push_cast
  rw [mul_div_mul_right _ _ he0]

theorem round8_eq_self {q : ℚ} (h : is8dec q) : round8 q = q := by
  obtain ⟨e, he⟩ := h
  have hd : q.den ≠ 0 := q.den_nz
  unfold round8
  by_cases hn : 0 ≤ q.num
  · rw [if_pos hn, round8_branch hd he]
    have h2 : ((q.num.toNat : ℚ)) = (q.num : ℚ) := by exact_mod_cast Int.toNat_of_nonneg hn
    rw [h2, Rat.num_div_den]
  · rw [if_neg hn, round8_branch hd he]
    have h2 : (((-q.num).toNat : ℚ)) = -(q.num : ℚ) := by
      have h3 : ((-q.num).toNat : ℤ) = -q.num := Int.toNat_of_nonneg (by omega)
      exact_mod_cast h3
    rw [h2, neg_div, neg_neg, Rat.num_div_den]

theorem is8dec_mkRat_pow8 (k : ℕ) : is8dec (mkRat (k : ℤ) 100000000) := by
  refine is8dec_iff.mpr ⟨(k : ℤ), ?_⟩
  rw [mkRat_natCast_div]
  norm_num

theorem is8dec_round8 (q : ℚ) : is8dec (round8 q) := by
  unfold round8
  by_cases hn : 0 ≤ q.num
  · rw [if_pos hn]
    exact is8dec_mkRat_pow8 _
  · rw [if_neg hn]
    exact is8dec_neg (is8dec_mkRat_pow8 _)

theorem round8_nonneg {q : ℚ} (h : 0 ≤ q) : 0 ≤ round8 q := by
  have hn : 0 ≤ q.num := Rat.num_nonneg.mpr h
  unfold round8
  rw [if_pos hn, mkRat_natCast_div]
  positivity

theorem lex_of_charListLtB : ∀ {as bs : List Char},
    charListLtB as bs = true → List.Lex (· < ·) as bs := by
  intro as
  induction as with
  | nil => intro bs h; cases bs with
    | nil => simp [charListLtB] at h
    | cons b bs => exact List.Lex.nil
  | cons a as ih =>
    intro bs h
    cases bs with
    | nil => simp [charListLtB] at h
    | cons b bs =>
      by_cases hab : a < b
      · exact List.Lex.rel hab
      · by_cases hba : b < a
        · simp [charListLtB, hab, hba] at h
        · have : a = b := le_antisymm (not_lt.mp hba) (not_lt.mp hab)
          subst this
          simp [charListLtB, hab] at h
          exact List.Lex.cons (ih h)

theorem strLt_of_charListLtB {s t : String} (h : charListLtB s.toList t.toList = true) :
    s < t :=
  String.lt_iff_toList_lt.mpr (lex_of_charListLtB h)

theorem chain'_of_chainIncB : ∀ {l : List String}, chainIncB l = true → l.Chain' (· < ·) := by
  intro l
  induction l with
  | nil => intro; exact List.chain'_nil
  | cons a t ih =>
    intro h
    cases t with
    | nil => exact List.chain'_singleton a
    | cons b t =>
      rw [List.chain'_cons]
      have h1 : charListLtB a.toList b.toList = true ∧ chainIncB (b :: t) = true := by
        simpa [chainIncB, Bool.and_eq_true] using h
      exact ⟨strLt_of_charListLtB h1.1, ih h1.2⟩

section AssocLemmas

variable {α β : Type} [DecidableEq α]

theorem getKey_setKey_self (m : List (α × β)) (k : α) (v : β) :
    getKey k (setKey m k v) = some v := by
  simp [getKey, setKey]

theorem getKey_eraseKey_ne (m : List (α × β)) {k k' : α} (h : k' ≠ k) :
    getKey k' (eraseKey k m) = getKey k' m := by
  induction m with
  | nil => rfl
  | cons p t ih =>
    obtain ⟨a, b⟩ := p
    by_cases hak : a = k
    · subst hak
      have hk' : a ≠ k' := fun e => h (e.symm)
      simp [eraseKey, getKey, hk', ih]
    · by_cases hak' : a = k'
      · simp [eraseKey, getKey, hak, hak', h]
      · simp [eraseKey, getKey, hak, hak', ih]

theorem getKey_setKey_ne (m : List (α × β)) {k k' : α} (v : β) (h : k' ≠ k) :
    getKey k' (setKey m k v) = getKey k' m := by
  have hkk : k ≠ k' := fun e => h (Eq.symm e)
  unfold setKey
  simp only [getKey, if_neg hkk]
  exact getKey_eraseKey_ne m h

theorem mem_of_getKey {m : List (α × β)} {k : α} {b : β} (h : getKey k m = some b) :
    (k, b) ∈ m := by
  induction m with
  | nil => simp [getKey] at h
  | cons p t ih =>
    obtain ⟨a, c⟩ := p
    by_cases hak : a = k
    · subst hak
      have h' : c = b := by simpa [getKey] using h
      subst h'
      exact List.mem_cons_self _ _
    · simp only [getKey, if_neg hak] at h
      exact List.mem_cons_of_mem _ (ih h)

theorem mem_eraseKey {m : List (α × β)} {k : α} {p : α × β}
    (h : p ∈ eraseKey k m) : p ∈ m ∧ p.1 ≠ k := by
  induction m with
  | nil => simp [eraseKey] at h
  | cons q t ih =>
    by_cases hq : q.1 = k
    · rw [eraseKey, if_pos hq] at h
      have := ih h
      exact ⟨List.mem_cons_of_mem _ this.1, this.2⟩
    · rw [eraseKey, if_neg hq] at h
      rcases List.mem_cons.mp h with h1 | h1
      · subst h1; exact ⟨List.mem_cons_self _ _, hq⟩
      · have := ih h1
        exact ⟨List.mem_cons_of_mem _ this.1, this.2⟩

theorem mem_setKey {m : List (α × β)} {k : α} {v : β} {p : α × β}
    (h : p ∈ setKey m k v) : p = (k, v) ∨ (p ∈ m ∧ p.1 ≠ k) := by
  unfold setKey at h
  rcases List.mem_cons.mp h with h1 | h1
  · exact Or.inl h1
  · exact Or.inr (mem_eraseKey h1)

theorem eraseKey_of_not_mem {m : List (α × β)} {k : α}
    (h : k ∉ m.map Prod.fst) : eraseKey k m = m := by
  induction m with
  | nil => rfl
  | cons q t ih =>
    simp only [List.map_cons, List.mem_cons, not_or] at h
    rw [eraseKey, if_neg (fun e => h.1 e.symm), ih h.2]

theorem eraseKey_sublist (k : α) (m : List (α × β)) : (eraseKey k m).Sublist m := by
  induction m with
  | nil => simp [eraseKey]
  | cons q t ih =>
    by_cases hq : q.1 = k
    · rw [eraseKey, if_pos hq]
      exact ih.cons q
    · rw [eraseKey, if_neg hq]
      exact ih.cons₂ q

theorem not_mem_keys_eraseKey (k : α) (m : List (α × β)) :
    k ∉ (eraseKey k m).map Prod.fst := by
  intro hk
  obtain ⟨p, hp, hpk⟩ := List.mem_map.mp hk
  exact (mem_eraseKey hp).2 hpk

theorem keysNodup_setKey {m : List (α × β)} (k : α) (v : β) (h : keysNodup m) :
    keysNodup (setKey m k v) := by
  unfold keysNodup setKey
  rw [List.map_cons, List.nodup_cons]
  exact ⟨not_mem_keys_eraseKey k m, h.sublist ((eraseKey_sublist k m).map Prod.fst)⟩

theorem sumBy_cons (f : β → ℚ) (p : α × β) (t : List (α × β)) :
    sumBy f (p :: t) = f p.2 + sumBy f t := by
  simp [sumBy]

theorem sumBy_eraseKey (f : β → ℚ) {m : List (α × β)} (k : α) (h : keysNodup m) :
    sumBy f (eraseKey k m) = sumBy f m - ((getKey k m).map f).getD 0 := by
  induction m with
  | nil => simp [eraseKey, sumBy, getKey]
  | cons p t ih =>
    obtain ⟨a, b⟩ := p
    have hsplit := List.nodup_cons.mp h
    have hna : a ∉ t.map Prod.fst := hsplit.1
    have hnd : keysNodup t := hsplit.2
    by_cases hak : a = k
    · subst hak
      rw [eraseKey, if_pos rfl, eraseKey_of_not_mem hna]
      simp [sumBy_cons, getKey]
    · rw [eraseKey, if_neg hak, sumBy_cons, sumBy_cons, ih hnd]
      have hg : getKey k ((a, b) :: t) = getKey k t := by
        simp [getKey, hak]
      rw [hg]
      ring

theorem sumBy_setKey (f : β → ℚ) {m : List (α × β)} (k : α) (v : β) (h : keysNodup m) :
    sumBy f (setKey m k v) = sumBy f m - ((getKey k m).map f).getD 0 + f v := by
  unfold setKey
  rw [sumBy_cons, sumBy_eraseKey f k h]
  ring

end AssocLemmas

/-! ### Characterization of the operations -/

theorem mapIdGetD (o : Option ℚ) : (o.map (fun q => q)).getD 0 = o.getD 0 := by
  cases o <;> rfl

theorem createDeal_def (s : State) (seller : Nat) (dealType title desc : String)
    (priceVal : ℚ) (now : String) :
    createDeal s seller dealType title desc priceVal now
      = if priceVal ≤ 0 then .error .validationError
        else .ok { s with
          deals := setKey s.deals (nextDealId s.seq).1
            { id := (nextDealId s.seq).1, seller := seller, buyer := none,
              title := title, desc := desc, dealType := dealType,
              price := round8 priceVal, status := "open", locked := 0,
              created_at := some now },
          seq := (nextDealId s.seq).2 } := rfl

theorem buy_none {s : State} {dealId : String} (buyerId : Nat) (now : String)
    (hd : getKey dealId s.deals = none) :
    buy s dealId buyerId now = .error .notFound := by
  unfold buy
  rw [hd]

theorem buy_def {s : State} {dealId : String} (buyerId : Nat) (now : String)
    {d : Deal} (hd : getKey dealId s.deals = some d) :
    buy s dealId buyerId now
      = if d.status ≠ "open" then .error .invalidState
        else if getBal s buyerId < d.price then .error .insufficientFunds
        else .ok { s with
          balances := setKey s.balances buyerId
            (round8 (qSub (getBal s buyerId) d.price)),
          deals := setKey s.deals dealId { d with
            buyer := some buyerId, locked := d.price,
            status := "in_progress", locked_at := some now } } := by
  unfold buy
  rw [hd]

theorem markSent_none {s : State} {dealId : String} (actorId : Nat) (now : String)
    (hd : getKey dealId s.deals = none) :
    markSent s dealId actorId now = .error .notFound := by
  unfold markSent
  rw [hd]

theorem markSent_def {s : State} {dealId : String} (actorId : Nat) (now : String)
    {d : Deal} (hd : getKey dealId s.deals = some d) :
    markSent s dealId actorId now
      = .ok { s with
          deals := setKey s.deals dealId
            { d with status := "sent_to_support", sent_at := some now } } := by
  unfold markSent
  rw [hd]

theorem confirmReceived_none {s : State} {dealId : String} (actorId : Nat) (now : String)
    (hd : getKey dealId s.deals = none) :
    confirmReceived s dealId actorId now = .error .notFound := by
  unfold confirmReceived
  rw [hd]

theorem confirmReceived_noBuyer {s : State} {dealId : String} (actorId : Nat)
    (now : String) {d : Deal} (hd : getKey dealId s.deals = some d)
    (hb : d.buyer = none) :
    confirmReceived s dealId actorId now = .error .noBuyer := by
  unfold confirmReceived
  rw [hd]
  dsimp only
  rw [hb]

theorem confirmReceived_def {s : State} {dealId : String} (actorId : Nat)
    (now : String) {d : Deal} {buyerId : Nat} (hd : getKey dealId s.deals = some d)
    (hb : d.buyer = some buyerId) :
    confirmReceived s dealId actorId now
      = .ok ({ s with
          balances := setKey s.balances d.seller
            (round8 (qAdd (getBal s d.seller) d.locked)),
          deals := setKey s.deals dealId
            { d with status := "done", completed_at := some now, locked := 0 },
          logs := setKey s.logs dealId
            { id := dealId, seller := d.seller, buyer := buyerId,
              amount := d.locked, title := d.title, desc := d.desc,
              completed_at := now } }, d.locked) := by
  unfold confirmReceived
  rw [hd]
  dsimp only
  rw [hb]

theorem reportProblem_none {s : State} {dealId : String} (actorId : Nat)
    (hd : getKey dealId s.deals = none) :
    reportProblem s dealId actorId = .error .notFound := by
  unfold reportProblem
  rw [hd]

theorem reportProblem_def {s : State} {dealId : String} (actorId : Nat)
    {d : Deal} (hd : getKey dealId s.deals = some d) :
    reportProblem s dealId actorId = .ok s := by
  unfold reportProblem
  rw [hd]

/-! ### Well-formedness is preserved -/

theorem wf_is8dec_getBal {s : State} (hwf : wf s) (id : Nat) :
    is8dec (getBal s id) := by
  unfold getBal
  cases hg : getKey id s.balances with
  | none => exact is8dec_zero
  | some b => exact hwf.2.2.1 _ (mem_of_getKey hg)

theorem wf_dealOK {s : State} (hwf : wf s) {k : String} {d : Deal}
    (h : getKey k s.deals = some d) : DealOK d :=
  hwf.2.2.2 _ (mem_of_getKey h)

theorem nonneg_getBal {s : State} (hn : nonneg s) (id : Nat) : 0 ≤ getBal s id := by
  unfold getBal
  cases hg : getKey id s.balances with
  | none => exact le_refl 0
  | some b => exact hn _ (mem_of_getKey hg)

theorem wf_createDeal {s : State} {seller : Nat} {dealType title desc : String}
    {priceVal : ℚ} {now : String} {s' : State} (hwf : wf s)
    (h : createDeal s seller dealType title desc priceVal now = .ok s') : wf s' := by
  rw [createDeal_def] at h
  by_cases hv : priceVal ≤ 0
  · rw [if_pos hv] at h; exact Except.noConfusion h
  · rw [if_neg hv] at h
    cases h
    obtain ⟨hnb, hnd, hbal, hdeal⟩ := hwf
    refine ⟨hnb, keysNodup_setKey _ _ hnd, hbal, ?_⟩
    intro p hp
    rcases mem_setKey hp with rfl | ⟨hm, _⟩
    · exact ⟨is8dec_round8 _, is8dec_zero, round8_nonneg (le_of_not_le hv), le_refl 0,
        fun _ => rfl⟩
    · exact hdeal _ hm

theorem wf_buy {s : State} {dealId : String} {buyerId : Nat} {now : String}
    {s' : State} (hwf : wf s) (h : buy s dealId buyerId now = .ok s') : wf s' := by
  cases hd : getKey dealId s.deals with
  | none => rw [buy_none buyerId now hd] at h; exact Except.noConfusion h
  | some d =>
    rw [buy_def buyerId now hd] at h
    by_cases hst : d.status ≠ "open"
    · rw [if_pos hst] at h; exact Except.noConfusion h
    · rw [if_neg hst] at h
      by_cases hbal : getBal s buyerId < d.price
      · rw [if_pos hbal] at h; exact Except.noConfusion h
      · rw [if_neg hbal] at h
        cases h
        obtain ⟨hnb, hnd, hbals, hdeal⟩ := hwf
        have hD := hdeal _ (mem_of_getKey hd)
        refine ⟨keysNodup_setKey _ _ hnb, keysNodup_setKey _ _ hnd, ?_, ?_⟩
        · intro p hp
          rcases mem_setKey hp with rfl | ⟨hm, _⟩
          · exact is8dec_round8 _
          · exact hbals _ hm
        · intro p hp
          rcases mem_setKey hp with rfl | ⟨hm, _⟩
          · exact ⟨hD.1, hD.1, hD.2.2.1, hD.2.2.1, by intro hcon; simp at hcon⟩
          · exact hdeal _ hm

theorem wf_markSent {s : State} {dealId : String} {actorId : Nat} {now : String}
    {s' : State} (hwf : wf s) (h : markSent s dealId actorId now = .ok s') : wf s' := by
  cases hd : getKey dealId s.deals with
  | none => rw [markSent_none actorId now hd] at h; exact Except.noConfusion h
  | some d =>
    rw [markSent_def actorId now hd] at h
    cases h
    obtain ⟨hnb, hnd, hbals, hdeal⟩ := hwf
    have hD := hdeal _ (mem_of_getKey hd)
    refine ⟨hnb, keysNodup_setKey _ _ hnd, hbals, ?_⟩
    intro p hp
    rcases mem_setKey hp with rfl | ⟨hm, _⟩
    · exact ⟨hD.1, hD.2.1, hD.2.2.1, hD.2.2.2.1, by intro hcon; simp at hcon⟩
    · exact hdeal _ hm

theorem wf_confirmReceived {s : State} {dealId : String} {actorId : Nat}
    {now : String} {r : State × ℚ} (hwf : wf s)
    (h : confirmReceived s dealId actorId now = .ok r) : wf r.1 := by
  cases hd : getKey dealId s.deals with
  | none => rw [confirmReceived_none actorId now hd] at h; exact Except.noConfusion h
  | some d =>
    cases hb : d.buyer with
    | none =>
      rw [confirmReceived_noBuyer actorId now hd hb] at h
      exact Except.noConfusion h
    | some buyerId =>
      rw [confirmReceived_def actorId now hd hb] at h
      cases h
      obtain ⟨hnb, hnd, hbals, hdeal⟩ := hwf
      have hD := hdeal _ (mem_of_getKey hd)
      refine ⟨keysNodup_setKey _ _ hnb, keysNodup_setKey _ _ hnd, ?_, ?_⟩
      · intro p hp
        rcases mem_setKey hp with rfl | ⟨hm, _⟩
        · exact is8dec_round8 _
        · exact hbals _ hm
      · intro p hp
        rcases mem_setKey hp with rfl | ⟨hm, _⟩
        · exact ⟨hD.1, is8dec_zero, hD.2.2.1, le_refl 0, fun _ => rfl⟩
        · exact hdeal _ hm

theorem wf_reportProblem {s : State} {dealId : String} {actorId : Nat}
    {s' : State} (hwf : wf s) (h : reportProblem s dealId actorId = .ok s') : wf s' := by
  cases hd : getKey dealId s.deals with
  | none => rw [reportProblem_none actorId hd] at h; exact Except.noConfusion h
  | some d =>
    rw [reportProblem_def actorId hd] at h
    cases h
    exact hwf

theorem wf_givebalance (s : State) (callerId ownerId target : Nat) (amt : ℚ)
    (hwf : wf s) : wf (givebalance s callerId ownerId target amt) := by
  unfold givebalance
  by_cases hc : callerId ≠ ownerId
  · rw [if_pos hc]; exact hwf
  · rw [if_neg hc]
    obtain ⟨hnb, hnd, hbals, hdeal⟩ := hwf
    refine ⟨keysNodup_setKey _ _ hnb, hnd, ?_, hdeal⟩
    intro p hp
    rcases mem_setKey hp with rfl | ⟨hm, _⟩
    · exact is8dec_round8 _
    · exact hbals _ hm

theorem wf_step (ownerId : Nat) {s : State} (hwf : wf s) (op : Op) :
    wf (step ownerId s op) := by
  cases op with
  | createDeal seller dealType title desc priceVal now =>
    cases h : createDeal s seller dealType title desc priceVal now with
    | ok s' => simp only [step, h]; exact wf_createDeal hwf h
    | error e => simp only [step, h]; exact hwf
  | buy dealId buyerId now =>
    cases h : buy s dealId buyerId now with
    | ok s' => simp only [step, h]; exact wf_buy hwf h
    | error e => simp only [step, h]; exact hwf
  | markSent dealId actorId now =>
    cases h : markSent s dealId actorId now with
    | ok s' => simp only [step, h]; exact wf_markSent hwf h
    | error e => simp only [step, h]; exact hwf
  | confirmReceived dealId actorId now =>
    cases h : confirmReceived s dealId actorId now with
    | ok r => simp only [step, h]; exact wf_confirmReceived hwf h
    | error e => simp only [step, h]; exact hwf
  | reportProblem dealId actorId =>
    cases h : reportProblem s dealId actorId with
    | ok s' => simp only [step, h]; exact wf_reportProblem hwf h
    | error e => simp only [step, h]; exact hwf
  | adminCredit callerId target amt =>
    simp only [step]
    exact wf_givebalance s callerId ownerId target amt hwf

theorem wf_run (ownerId : Nat) {s : State} (hwf : wf s) (ops : List Op) :
    wf (run ownerId s ops) := by
  induction ops generalizing s with
  | nil => exact hwf
  | cons op rest ih =>
    rw [run, List.foldl_cons]
    exact ih (wf_step ownerId hwf op)

/-! ### Conservation of funds -/

theorem bal_getD (s : State) (id : Nat) :
    ((getKey id s.balances).map (fun q => q)).getD 0 = getBal s id := by
  rw [mapIdGetD]; rfl

theorem locked_getD {s : State} {k : String} {d : Deal}
    (hd : getKey k s.deals = some d) :
    ((getKey k s.deals).map Deal.locked).getD 0 = d.locked := by
  rw [hd]; rfl

theorem total_createDeal {s : State} {seller : Nat} {dealType title desc : String}
    {priceVal : ℚ} {now : String} {s' : State} (hwf : wf s)
    (hfresh : getKey (nextDealId s.seq).1 s.deals = none)
    (h : createDeal s seller dealType title desc priceVal now = .ok s') :
    total s' = total s := by
  rw [createDeal_def] at h
  by_cases hv : priceVal ≤ 0
  · rw [if_pos hv] at h; exact Except.noConfusion h
  · rw [if_neg hv] at h
    cases h
    unfold total
    rw [sumBy_setKey Deal.locked _ _ hwf.2.1]
    simp [hfresh]

theorem total_buy {s : State} {dealId : String} {buyerId : Nat} {now : String}
    {s' : State} (hwf : wf s) (h : buy s dealId buyerId now = .ok s') :
    total s' = total s := by
  cases hd : getKey dealId s.deals with
  | none => rw [buy_none buyerId now hd] at h; exact Except.noConfusion h
  | some d =>
    rw [buy_def buyerId now hd] at h
    by_cases hst : d.status ≠ "open"
    · rw [if_pos hst] at h; exact Except.noConfusion h
    · rw [if_neg hst] at h
      by_cases hbal : getBal s buyerId < d.price
      · rw [if_pos hbal] at h; exact Except.noConfusion h
      · rw [if_neg hbal] at h
        cases h
        have hD := wf_dealOK hwf hd
        have hlock0 : d.locked = 0 := hD.2.2.2.2 (not_not.mp hst)
        have hsub : round8 (qSub (getBal s buyerId) d.price)
            = getBal s buyerId - d.price := by
          rw [qSub_eq]
          exact round8_eq_self (is8dec_sub (wf_is8dec_getBal hwf buyerId) hD.1)
        unfold total
        rw [sumBy_setKey (fun q => q) _ _ hwf.1, sumBy_setKey Deal.locked _ _ hwf.2.1,
          bal_getD, locked_getD hd, hsub, hlock0]
        dsimp only
        ring

theorem total_markSent {s : State} {dealId : String} {actorId : Nat} {now : String}
    {s' : State} (hwf : wf s) (h : markSent s dealId actorId now = .ok s') :
    total s' = total s := by
  cases hd : getKey dealId s.deals with
  | none => rw [markSent_none actorId now hd] at h; exact Except.noConfusion h
  | some d =>
    rw [markSent_def actorId now hd] at h
    cases h
    unfold total
    rw [sumBy_setKey Deal.locked _ _ hwf.2.1, locked_getD hd]
    dsimp only
    ring

theorem total_confirmReceived {s : State} {dealId : String} {actorId : Nat}
    {now : String} {r : State × ℚ} (hwf : wf s)
    (h : confirmReceived s dealId actorId now = .ok r) : total r.1 = total s := by
  cases hd : getKey dealId s.deals with
  | none => rw [confirmReceived_none actorId now hd] at h; exact Except.noConfusion h
  | some d =>
    cases hb : d.buyer with
    | none =>
      rw [confirmReceived_noBuyer actorId now hd hb] at h
      exact Except.noConfusion h
    | some buyerId =>
      rw [confirmReceived_def actorId now hd hb] at h
      cases h
      have hD := wf_dealOK hwf hd
      have hadd : round8 (qAdd (getBal s d.seller) d.locked)
          = getBal s d.seller + d.locked := by
        rw [qAdd_eq]
        exact round8_eq_self (is8dec_add (wf_is8dec_getBal hwf d.seller) hD.2.1)
      unfold total
      rw [sumBy_setKey (fun q => q) _ _ hwf.1, sumBy_setKey Deal.locked _ _ hwf.2.1,
        bal_getD, locked_getD hd, hadd]
      dsimp only
      ring

theorem total_reportProblem {s : State} {dealId : String} {actorId : Nat}
    {s' : State} (h : reportProblem s dealId actorId = .ok s') : total s' = total s := by
  cases hd : getKey dealId s.deals with
  | none => rw [reportProblem_none actorId hd] at h; exact Except.noConfusion h
  | some d =>
    rw [reportProblem_def actorId hd] at h
    cases h
    rfl

theorem total_step {ownerId : Nat} {s : State} {op : Op} (hwf : wf s)
    (hop : op.isAdmin = false) (hfresh : freshAt s op = true) :
    total (step ownerId s op) = total s := by
  cases op with
  | createDeal seller dealType title desc priceVal now =>
    cases h : createDeal s seller dealType title desc priceVal now with
    | ok s' =>
      simp only [step, h]
      have hfresh2 : priceVal ≤ 0 ∨ getKey (nextDealId s.seq).1 s.deals = none := by
        simpa [freshAt, Option.isNone_iff_eq_none] using hfresh
      rcases hfresh2 with hpv | hiso
      · exfalso
        rw [createDeal_def, if_pos hpv] at h
        exact Except.noConfusion h
      · exact total_createDeal hwf hiso h
    | error e => simp only [step, h]
  | buy dealId buyerId now =>
    cases h : buy s dealId buyerId now with
    | ok s' => simp only [step, h]; exact total_buy hwf h
    | error e => simp only [step, h]
  | markSent dealId actorId now =>
    cases h : markSent s dealId actorId now with
    | ok s' => simp only [step, h]; exact total_markSent hwf h
    | error e => simp only [step, h]
  | confirmReceived dealId actorId now =>
    cases h : confirmReceived s dealId actorId now with
    | ok r => simp only [step, h]; exact total_confirmReceived hwf h
    | error e => simp only [step, h]
  | reportProblem dealId actorId =>
    cases h : reportProblem s dealId actorId with
    | ok s' => simp only [step, h]; exact total_reportProblem h
    | error e => simp only [step, h]
  | adminCredit callerId target amt =>
    simp [Op.isAdmin] at hop

theorem total_run {ownerId : Nat} {s : State} {ops : List Op} (hwf : wf s)
    (hA : noAdmin ops = true) (hC : noCollisionRun ownerId s ops = true) :
    total (run ownerId s ops) = total s := by
  induction ops generalizing s with
  | nil => rfl
  | cons op rest ih =>
    have hA1 : op.isAdmin = false ∧ noAdmin rest = true := by
      simpa [noAdmin, List.all_cons] using hA
    have hC1 : freshAt s op = true
        ∧ noCollisionRun ownerId (step ownerId s op) rest = true := by
      simpa only [noCollisionRun, Bool.and_eq_true] using hC
    rw [run, List.foldl_cons]
    have hwf' := wf_step ownerId hwf op
    have hstep : total (step ownerId s op) = total s := total_step hwf hA1.1 hC1.1
    calc total (List.foldl (step ownerId) (step ownerId s op) rest)
        = total (step ownerId s op) := ih hwf' hA1.2 hC1.2
      _ = total s := hstep

/-! ### Non-negative balances -/

theorem nonneg_createDeal {s : State} {seller : Nat} {dealType title desc : String}
    {priceVal : ℚ} {now : String} {s' : State} (hn : nonneg s)
    (h : createDeal s seller dealType title desc priceVal now = .ok s') : nonneg s' := by
  rw [createDeal_def] at h
  by_cases hv : priceVal ≤ 0
  · rw [if_pos hv] at h; exact Except.noConfusion h
  · rw [if_neg hv] at h
    cases h
    exact hn

theorem nonneg_buy {s : State} {dealId : String} {buyerId : Nat} {now : String}
    {s' : State} (hn : nonneg s) (h : buy s dealId buyerId now = .ok s') : nonneg s' := by
  cases hd : getKey dealId s.deals with
  | none => rw [buy_none buyerId now hd] at h; exact Except.noConfusion h
  | some d =>
    rw [buy_def buyerId now hd] at h
    by_cases hst : d.status ≠ "open"
    · rw [if_pos hst] at h; exact Except.noConfusion h
    · rw [if_neg hst] at h
      by_cases hbal : getBal s buyerId < d.price
      · rw [if_pos hbal] at h; exact Except.noConfusion h
      · rw [if_neg hbal] at h
        cases h
        intro p hp
        rcases mem_setKey hp with rfl | ⟨hm, _⟩
        · rw [qSub_eq]
          exact round8_nonneg (by linarith [not_lt.mp hbal])
        · exact hn _ hm

theorem nonneg_markSent {s : State} {dealId : String} {actorId : Nat} {now : String}
    {s' : State} (hn : nonneg s) (h : markSent s dealId actorId now = .ok s') :
    nonneg s' := by
  cases hd : getKey dealId s.deals with
  | none => rw [markSent_none actorId now hd] at h; exact Except.noConfusion h
  | some d =>
    rw [markSent_def actorId now hd] at h
    cases h
    exact hn

theorem nonneg_confirmReceived {s : State} {dealId : String} {actorId : Nat}
    {now : String} {r : State × ℚ} (hwf : wf s) (hn : nonneg s)
    (h : confirmReceived s dealId actorId now = .ok r) : nonneg r.1 := by
  cases hd : getKey dealId s.deals with
  | none => rw [confirmReceived_none actorId now hd] at h; exact Except.noConfusion h
  | some d =>
    cases hb : d.buyer with
    | none =>
      rw [confirmReceived_noBuyer actorId now hd hb] at h
      exact Except.noConfusion h
    | some buyerId =>
      rw [confirmReceived_def actorId now hd hb] at h
      cases h
      intro p hp
      rcases mem_setKey hp with rfl | ⟨hm, _⟩
      · rw [qAdd_eq]
        exact round8_nonneg
          (add_nonneg (nonneg_getBal hn d.seller) (wf_dealOK hwf hd).2.2.2.1)
      · exact hn _ hm

theorem nonneg_reportProblem {s : State} {dealId : String} {actorId : Nat}
    {s' : State} (hn : nonneg s) (h : reportProblem s dealId actorId = .ok s') :
    nonneg s' := by
  cases hd : getKey dealId s.deals with
  | none => rw [reportProblem_none actorId hd] at h; exact Except.noConfusion h
  | some d =>
    rw [reportProblem_def actorId hd] at h
    cases h
    exact hn

theorem nonneg_givebalance {s : State} (callerId ownerId target : Nat) {amt : ℚ}
    (hn : nonneg s) (hamt : 0 ≤ amt) :
    nonneg (givebalance s callerId ownerId target amt) := by
  unfold givebalance
  by_cases hc : callerId ≠ ownerId
  · rw [if_pos hc]; exact hn
  · rw [if_neg hc]
    intro p hp
    rcases mem_setKey hp with rfl | ⟨hm, _⟩
    · rw [qAdd_eq]
      exact round8_nonneg (add_nonneg (nonneg_getBal hn target) hamt)
    · exact hn _ hm

theorem nonneg_step {ownerId : Nat} {s : State} {op : Op} (hwf : wf s)
    (hn : nonneg s) (hamt : op.amtOK = true) :
    nonneg (step ownerId s op) := by
  cases op with
  | createDeal seller dealType title desc priceVal now =>
    cases h : createDeal s seller dealType title desc priceVal now with
    | ok s' => simp only [step, h]; exact nonneg_createDeal hn h
    | error e => simp only [step, h]; exact hn
  | buy dealId buyerId now =>
    cases h : buy s dealId buyerId now with
    | ok s' => simp only [step, h]; exact nonneg_buy hn h
    | error e => simp only [step, h]; exact hn
  | markSent dealId actorId now =>
    cases h : markSent s dealId actorId now with
    | ok s' => simp only [step, h]; exact nonneg_markSent hn h
    | error e => simp only [step, h]; exact hn
  | confirmReceived dealId actorId now =>
    cases h : confirmReceived s dealId actorId now with
    | ok r => simp only [step, h]; exact nonneg_confirmReceived hwf hn h
    | error e => simp only [step, h]; exact hn
  | reportProblem dealId actorId =>
    cases h : reportProblem s dealId actorId with
    | ok s' => simp only [step, h]; exact nonneg_reportProblem hn h
    | error e => simp only [step, h]; exact hn
  | adminCredit callerId target amt =>
    simp only [step]
    have h0 : (0 : ℚ) ≤ amt := of_decide_eq_true (by simpa [Op.amtOK] using hamt)
    exact nonneg_givebalance callerId ownerId target hn h0

theorem nonneg_run {ownerId : Nat} {s : State} {ops : List Op} (hwf : wf s)
    (hn : nonneg s) (hA : adminAmtsNonneg ops = true) :
    nonneg (run ownerId s ops) := by
  induction ops generalizing s with
  | nil => exact hn
  | cons op rest ih =>
    have hA1 : op.amtOK = true ∧ adminAmtsNonneg rest = true := by
      simpa only [adminAmtsNonneg, List.all_cons, Bool.and_eq_true] using hA
    rw [run, List.foldl_cons]
    exact ih (wf_step ownerId hwf op) (nonneg_step hwf hn hA1.1) hA1.2

/-! ### The claims -/

/-- C1 (amended): on a well-formed state, any sequence of non-administrative
operations in which no `createDeal` reuses the id of an existing deal (the
sequence-wrap collision) leaves `Σ(balances) + Σ(deal.locked)` unchanged. -/
theorem C1_conservation {ownerId : Nat} {s : State} {ops : List Op} (hwf : wf s)
    (hA : noAdmin ops = true) (hC : noCollisionRun ownerId s ops = true) :
    total (run ownerId s ops) = total s :=
  total_run hwf hA hC

/-- C1 counterexample: from the well-formed state `sCollide`, whose sequence
counter points back at the id of a live locked deal, a single
non-administrative `createDeal` overwrites that deal and destroys its locked
`12.5`, dropping the total from `20` to `7.5`. -/
theorem C1_counterexample :
    wf sCollide ∧ noAdmin [Op.createDeal 3 "NFT" "t" "d" 1 "t3"] = true ∧
    total sCollide = 20 ∧
    total (run 0 sCollide [Op.createDeal 3 "NFT" "t" "d" 1 "t3"]) = mkRat 15 2 ∧
    (mkRat 15 2 : ℚ) ≠ 20 := by
  refine ⟨by decide, by decide, ?_, ?_, by decide⟩
  · show sumBy (fun q => q) sCollide.balances + sumBy Deal.locked sCollide.deals = 20
    have h1 : sumBy (fun q => q) sCollide.balances = mkRat 15 2 := by
      simp [sCollide, sInProgress, sumBy]
    have h2 : sumBy Deal.locked sCollide.deals = mkRat 25 2 := by
      simp [sCollide, sInProgress, dealInProgress, dealOpen, sumBy]
    rw [h1, h2, ← qAdd_eq]
    decide
  · have hrun : run 0 sCollide [Op.createDeal 3 "NFT" "t" "d" 1 "t3"]
        = { balances := [(2, mkRat 15 2)],
            deals := [("#A7342",
              { id := "#A7342", seller := 3, buyer := none, title := "t",
                desc := "d", dealType := "NFT", price := 1, status := "open",
                locked := 0, created_at := some "t3" })],
            logs := [], seq := ⟨'A', 7343⟩ } := by decide
    rw [hrun]
    simp [total, sumBy]

/-- C1 witness: a full happy-path sequence on `sOpen` conserves the total. -/
theorem C1_witness :
    wf sOpen ∧ noAdmin wOpsC1 = true ∧ noCollisionRun 0 sOpen wOpsC1 = true ∧
    total (run 0 sOpen wOpsC1) = total sOpen :=
  ⟨by decide, by decide, by decide,
    C1_conservation (by decide) (by decide) (by decide)⟩

/-- C2 (amended): on a well-formed state, a first `confirmReceived` on a deal
with a recorded buyer credits the seller with exactly `deal.locked`; a second
`confirmReceived` on the same deal does not fail — it succeeds again and
credits `0`, leaving every balance value unchanged (so the seller is credited
exactly once in total), though it overwrites the completion timestamp. -/
theorem C2_exactly_once {s : State} {dealId : String} {d : Deal} {b : Nat}
    (actor actor2 : Nat) (now now2 : String) (hwf : wf s)
    (hd : getKey dealId s.deals = some d) (hb : d.buyer = some b) :
    ∃ s1, confirmReceived s dealId actor now = .ok (s1, d.locked) ∧
      getBal s1 d.seller = getBal s d.seller + d.locked ∧
      ∃ s2, confirmReceived s1 dealId actor2 now2 = .ok (s2, 0) ∧
        ∀ idp, getBal s2 idp = getBal s1 idp := by
  have hD := wf_dealOK hwf hd
  have h1 := confirmReceived_def actor now hd hb
  have hv : round8 (qAdd (getBal s d.seller) d.locked)
      = getBal s d.seller + d.locked := by
    rw [qAdd_eq]
    exact round8_eq_self (is8dec_add (wf_is8dec_getBal hwf d.seller) hD.2.1)
  refine ⟨_, h1, ?_, ?_⟩
  · show (getKey d.seller (setKey s.balances d.seller
        (round8 (qAdd (getBal s d.seller) d.locked)))).getD 0
        = getBal s d.seller + d.locked
    rw [getKey_setKey_self]
    exact hv
  · have hwf1 := wf_confirmReceived hwf h1
    have hd1 : getKey dealId
        ({ s with
          balances := setKey s.balances d.seller
            (round8 (qAdd (getBal s d.seller) d.locked)),
          deals := setKey s.deals dealId
            { d with status := "done", completed_at := some now, locked := 0 },
          logs := setKey s.logs dealId
            { id := dealId, seller := d.seller, buyer := b, amount := d.locked,
              title := d.title, desc := d.desc,
              completed_at := now } } : State).deals
        = some { d with status := "done", completed_at := some now, locked := 0 } :=
      getKey_setKey_self _ _ _
    have hb1 : ({ d with status := "done", completed_at := some now, locked := 0 } : Deal).buyer = some b := hb
    have h2 := confirmReceived_def actor2 now2 hd1 hb1
    refine ⟨_, h2, ?_⟩
    intro idp
    have hv2 : round8 (qAdd (getBal
        ({ s with
          balances := setKey s.balances d.seller
            (round8 (qAdd (getBal s d.seller) d.locked)),
          deals := setKey s.deals dealId
            { d with status := "done", completed_at := some now, locked := 0 },
          logs := setKey s.logs dealId
            { id := dealId, seller := d.seller, buyer := b, amount := d.locked,
              title := d.title, desc := d.desc, completed_at := now } } : State)
          d.seller) 0)
        = getBal ({ s with
          balances := setKey s.balances d.seller
            (round8 (qAdd (getBal s d.seller) d.locked)),
          deals := setKey s.deals dealId
            { d with status := "done", completed_at := some now, locked := 0 },
          logs := setKey s.logs dealId
            { id := dealId, seller := d.seller, buyer := b, amount := d.locked,
              title := d.title, desc := d.desc, completed_at := now } } : State)
          d.seller := by
      rw [qAdd_eq, add_zero]
      exact round8_eq_self (wf_is8dec_getBal hwf1 d.seller)
    by_cases hip : idp = d.seller
    · show (getKey idp (setKey _ d.seller _)).getD 0 = _
      rw [hip, getKey_setKey_self]
      exact hv2
    · show (getKey idp (setKey _ d.seller _)).getD 0 = _
      rw [getKey_setKey_ne _ _ hip]
      rfl

/-- C2 counterexample: after settling `sSent` into `sDone`, a second
`confirmReceived` does not fail with `InvalidState` — it succeeds, returns a
credited amount of `0` and rewrites the completion timestamp to the new
wall-clock value. -/
theorem C2_counterexample :
    confirmReceived sSent "#A7342" 2 "t3" = .ok (sDone, mkRat 25 2) ∧
    confirmReceived sDone "#A7342" 2 "t4" ≠ .error .invalidState ∧
    (confirmReceived sDone "#A7342" 2 "t4").isOk = true ∧
    (confirmReceived sDone "#A7342" 2 "t4").toOption.map (fun r => r.2) = some 0 ∧
    (confirmReceived sDone "#A7342" 2 "t4").toOption.map
      (fun r => (getKey "#A7342" r.1.deals).map Deal.completed_at)
      = some (some (some "t4")) := by
  exact ⟨by decide, by decide, by decide, by decide, by decide⟩

/-- C2 witness: instance of the exactly-once settlement on `sSent`. -/
theorem C2_witness :
    wf sSent ∧ getKey "#A7342" sSent.deals = some dealSent ∧
    dealSent.buyer = some 2 ∧
    (∃ s1, confirmReceived sSent "#A7342" 2 "t3" = .ok (s1, dealSent.locked) ∧
      getBal s1 dealSent.seller = getBal sSent dealSent.seller + dealSent.locked ∧
      ∃ s2, confirmReceived s1 "#A7342" 7 "t4" = .ok (s2, 0) ∧
        ∀ idp, getBal s2 idp = getBal s1 idp) :=
  ⟨by decide, by decide, by decide,
    C2_exactly_once 2 7 "t3" "t4" (by decide)
      (by decide : getKey "#A7342" sSent.deals = some dealSent)
      (by decide : dealSent.buyer = some 2)⟩

/-- C3 (amended): `confirmReceived` never consults the deal status or the
acting user: on a well-formed state it yields the same result for every
actor, fails only when the deal is missing or has no recorded buyer, and
otherwise — under any status whatsoever — credits the seller with
`deal.locked` exactly, zeroes `locked`, sets the status to `done` and writes
the completion record (overwriting any previous one under that id). -/
theorem C3_confirm_semantics {s : State} {dealId : String} {d : Deal}
    (actor actor2 : Nat) (now : String) (hwf : wf s)
    (hd : getKey dealId s.deals = some d) :
    (confirmReceived s dealId actor now = confirmReceived s dealId actor2 now) ∧
    (d.buyer = none → confirmReceived s dealId actor now = .error .noBuyer) ∧
    ∀ b, d.buyer = some b →
      confirmReceived s dealId actor now
        = .ok ({ s with
            balances := setKey s.balances d.seller
              (round8 (qAdd (getBal s d.seller) d.locked)),
            deals := setKey s.deals dealId
              { d with status := "done", completed_at := some now, locked := 0 },
            logs := setKey s.logs dealId
              { id := dealId, seller := d.seller, buyer := b, amount := d.locked,
                title := d.title, desc := d.desc, completed_at := now } }, d.locked) ∧
      round8 (qAdd (getBal s d.seller) d.locked) = getBal s d.seller + d.locked := by
  refine ⟨rfl, fun hb => confirmReceived_noBuyer actor now hd hb, ?_⟩
  intro b hb
  refine ⟨confirmReceived_def actor now hd hb, ?_⟩
  rw [qAdd_eq]
  exact round8_eq_self
    (is8dec_add (wf_is8dec_getBal hwf d.seller) (wf_dealOK hwf hd).2.1)

/-- C3 counterexample: on `sInProgress` the status is `in_progress` (not
`sent_to_support`) and the caller `99` is not the recorded buyer `2`, yet
`confirmReceived` succeeds and credits the seller with the locked `12.5`. -/
theorem C3_counterexample :
    dealInProgress.status = "in_progress" ∧
    dealInProgress.status ≠ "sent_to_support" ∧
    dealInProgress.buyer = some 2 ∧ (99 : Nat) ≠ 2 ∧
    (confirmReceived sInProgress "#A7342" 99 "t9").isOk = true ∧
    (confirmReceived sInProgress "#A7342" 99 "t9").toOption.map
      (fun r => getBal r.1 1) = some (mkRat 25 2) := by
  exact ⟨rfl, by decide, rfl, by decide, by decide, by decide⟩

/-- C3 witness: actor independence of `confirmReceived`, instantiated. -/
theorem C3_witness :
    wf sSent ∧ getKey "#A7342" sSent.deals = some dealSent ∧
    confirmReceived sSent "#A7342" 5 "t3" = confirmReceived sSent "#A7342" 8 "t3" :=
  ⟨by decide, by decide, (C3_confirm_semantics 5 8 "t3" (by decide)
    (by decide : getKey "#A7342" sSent.deals = some dealSent)).1⟩

/-- C4 (amended): `markSent` checks neither the actor nor the status: for any
existing deal it yields the same result for every actor and unconditionally
succeeds, setting the status to `sent_to_support` (and the `sent_at`
timestamp) while leaving balances and logs untouched. -/
theorem C4_markSent_semantics {s : State} {dealId : String} {d : Deal}
    (actor actor2 : Nat) (now : String) (hd : getKey dealId s.deals = some d) :
    (markSent s dealId actor now = markSent s dealId actor2 now) ∧
    markSent s dealId actor now = .ok { s with
      deals := setKey s.deals dealId
        { d with status := "sent_to_support", sent_at := some now } } ∧
    ∀ s', markSent s dealId actor now = .ok s' →
      s'.balances = s.balances ∧ s'.logs = s.logs := by
  refine ⟨rfl, markSent_def actor now hd, ?_⟩
  intro s' h
  rw [markSent_def actor now hd] at h
  cases h
  exact ⟨rfl, rfl⟩

/-- C4 counterexample: on `sOpen` the status is `open` (not `in_progress`)
and the caller `99` is not the seller `1`, yet `markSent` succeeds (instead
of failing `Unauthorized`/`InvalidState`) and moves the deal to
`sent_to_support`. -/
theorem C4_counterexample :
    dealOpen.status = "open" ∧ dealOpen.status ≠ "in_progress" ∧
    dealOpen.seller = 1 ∧ (99 : Nat) ≠ 1 ∧
    (markSent sOpen "#A7342" 99 "t9").isOk = true ∧
    (markSent sOpen "#A7342" 99 "t9").toOption.map
      (fun s' => (getKey "#A7342" s'.deals).map Deal.status)
      = some (some "sent_to_support") := by
  exact ⟨rfl, by decide, rfl, by decide, by decide, by decide⟩

/-- C4 witness: instance of the `markSent` semantics on `sOpen`. -/
theorem C4_witness :
    getKey "#A7342" sOpen.deals = some dealOpen ∧
    markSent sOpen "#A7342" 5 "t2" = .ok { sOpen with
      deals := setKey sOpen.deals "#A7342"
        { dealOpen with status := "sent_to_support", sent_at := some "t2" } } :=
  ⟨by decide, (C4_markSent_semantics 5 6 "t2"
    (by decide : getKey "#A7342" sOpen.deals = some dealOpen)).2.1⟩

/-- C5: `buy` succeeds exactly when the deal is `open` and the buyer's
balance covers the price; a non-open deal yields `InvalidState`, an open deal
with a short balance yields `InsufficientFunds`, a failing call leaves the
state unchanged, and a successful call debits the buyer by exactly the
price, records the buyer, locks the price and moves the status to
`in_progress`. -/
theorem C5_buy_semantics {s : State} {dealId : String} {d : Deal}
    (buyerId : Nat) (now : String) (hwf : wf s)
    (hd : getKey dealId s.deals = some d) :
    ((∃ s', buy s dealId buyerId now = .ok s') ↔
      (d.status = "open" ∧ d.price ≤ getBal s buyerId)) ∧
    (d.status ≠ "open" → buy s dealId buyerId now = .error .invalidState) ∧
    (d.status = "open" → getBal s buyerId < d.price →
      buy s dealId buyerId now = .error .insufficientFunds) ∧
    (∀ ownerId e, buy s dealId buyerId now = .error e →
      step ownerId s (.buy dealId buyerId now) = s) ∧
    (∀ s', buy s dealId buyerId now = .ok s' →
      getBal s' buyerId = getBal s buyerId - d.price ∧
      getKey dealId s'.deals = some { d with
        buyer := some buyerId, locked := d.price, status := "in_progress",
        locked_at := some now } ∧
      s'.logs = s.logs ∧ s'.seq = s.seq) := by
  have hD := wf_dealOK hwf hd
  have hdef := buy_def buyerId now hd
  by_cases hst : d.status ≠ "open"
  · rw [hdef, if_pos hst]
    exact ⟨⟨fun h => Except.noConfusion h.choose_spec, fun h => absurd h.1 hst⟩,
      fun _ => rfl, fun ho _ => absurd ho hst,
      fun ownerId e _ => by simp [step, hdef, hst],
      fun s' h => Except.noConfusion h⟩
  · have hopen : d.status = "open" := not_not.mp hst
    rw [hdef, if_neg hst]
    by_cases hbal : getBal s buyerId < d.price
    · rw [if_pos hbal]
      exact ⟨⟨fun h => Except.noConfusion h.choose_spec,
        fun h => absurd hbal (not_lt.mpr h.2)⟩,
        fun hc => absurd hopen hc, fun _ _ => rfl,
        fun ownerId e _ => by simp [step, hdef, hst, hbal],
        fun s' h => Except.noConfusion h⟩
    · rw [if_neg hbal]
      have hsub : round8 (qSub (getBal s buyerId) d.price)
          = getBal s buyerId - d.price := by
        rw [qSub_eq]
        exact round8_eq_self (is8dec_sub (wf_is8dec_getBal hwf buyerId) hD.1)
      refine ⟨⟨fun _ => ⟨hopen, not_lt.mp hbal⟩, fun _ => ⟨_, rfl⟩⟩,
        fun hc => absurd hopen hc, fun _ hlt => absurd hlt hbal,
        fun ownerId e h => Except.noConfusion h, ?_⟩
      intro s' h
      cases h
      refine ⟨?_, getKey_setKey_self _ _ _, rfl, rfl⟩
      show (getKey buyerId (setKey s.balances buyerId
        (round8 (qSub (getBal s buyerId) d.price)))).getD 0
        = getBal s buyerId - d.price
      rw [getKey_setKey_self]
      exact hsub

/-- C5 witness: on `sOpen`, buyer `2` (balance `20`, price `12.5`) can buy,
and penniless buyer `3` gets `InsufficientFunds`. -/
theorem C5_witness :
    wf sOpen ∧ getKey "#A7342" sOpen.deals = some dealOpen ∧
    (∃ s', buy sOpen "#A7342" 2 "t1" = .ok s') ∧
    buy sOpen "#A7342" 3 "t1" = .error .insufficientFunds :=
  ⟨by decide, by decide,
    (C5_buy_semantics 2 "t1" (by decide)
      (by decide : getKey "#A7342" sOpen.deals = some dealOpen)).1.mpr (by decide),
    (C5_buy_semantics 3 "t1" (by decide)
      (by decide : getKey "#A7342" sOpen.deals = some dealOpen)).2.2.1
      (by decide) (by decide)⟩

/-- C6 (amended): `reportProblem` on an existing deal only sends
notifications: it returns with the state completely unchanged — in
particular it performs no ledger mutation, but it also never sets the status
to `disputed`. -/
theorem C6_reportProblem_noop {s : State} {dealId : String} {d : Deal}
    (actor : Nat) (hd : getKey dealId s.deals = some d) :
    reportProblem s dealId actor = .ok s ∧
    ∀ s', reportProblem s dealId actor = .ok s' →
      total s' = total s ∧ s'.deals = s.deals := by
  refine ⟨reportProblem_def actor hd, ?_⟩
  intro s' h
  rw [reportProblem_def actor hd] at h
  cases h
  exact ⟨rfl, rfl⟩

/-- C6 counterexample: on `sSent` (status `sent_to_support`) the recorded
buyer `2` reports a problem, yet the deal's status remains `sent_to_support`
and is never set to `disputed`. -/
theorem C6_counterexample :
    dealSent.status = "sent_to_support" ∧ dealSent.buyer = some 2 ∧
    reportProblem sSent "#A7342" 2 = .ok sSent ∧
    (getKey "#A7342" sSent.deals).map Deal.status = some "sent_to_support" ∧
    "sent_to_support" ≠ "disputed" := by
  exact ⟨rfl, rfl, by decide, by decide, by decide⟩

/-- C6 witness: instance of the `reportProblem` no-op on `sSent`. -/
theorem C6_witness :
    getKey "#A7342" sSent.deals = some dealSent ∧
    reportProblem sSent "#A7342" 2 = .ok sSent :=
  ⟨by decide, (C6_reportProblem_noop 2
    (by decide : getKey "#A7342" sSent.deals = some dealSent)).1⟩

/-- C7 (amended): starting from a well-formed state with non-negative
balances, every balance stays non-negative across any operation sequence
provided every administrative credit amount is non-negative (a negative
`/givebalance` amount can and does drive a balance negative). -/
theorem C7_nonneg {ownerId : Nat} {s : State} {ops : List Op} (hwf : wf s)
    (hn : nonneg s) (hA : adminAmtsNonneg ops = true) :
    nonneg (run ownerId s ops) ∧ ∀ id, 0 ≤ getBal (run ownerId s ops) id := by
  have h : nonneg (run ownerId s ops) := nonneg_run hwf hn hA
  exact ⟨h, fun id => nonneg_getBal h id⟩

/-- C7 counterexample: the owner's `/givebalance` accepts a negative amount;
crediting `-1` from the pristine initial state leaves party `2` with a
negative balance. -/
theorem C7_counterexample :
    adminAmtsNonneg [Op.adminCredit 1 2 (-1)] = false ∧
    getBal (run 1 initialState [Op.adminCredit 1 2 (-1)]) 2 < 0 := by
  exact ⟨by decide, by decide⟩

/-- C7 witness: non-negativity across an admin credit and a buy on `sOpen`. -/
theorem C7_witness :
    wf sOpen ∧ nonneg sOpen ∧ adminAmtsNonneg wOpsC7 = true ∧
    0 ≤ getBal (run 1 sOpen wOpsC7) 2 :=
  ⟨by decide, by decide, by decide,
    (C7_nonneg (by decide) (by decide) (by decide)).2 2⟩

set_option maxRecDepth 100000 in
/-- C8: the id sequence starts at `"#A7342"`; each call returns
`"#<letter><number>"` and then advances: `number + 1` while it stays at most
`9999`, else the next letter with `number = 1000`, wrapping to `'A'` past
`'Z'`; from `{A, 9999}` the generator emits `"#A9999"` and then `"#B1000"`;
and 1000 successive calls from `{A, 9999}` yield 1000 strictly increasing,
hence unique, ids. -/
theorem C8_sequence :
    (nextDealId initialSeq).1 = "#A7342" ∧
    (∀ c : SeqCounter,
      (nextDealId c).1 = "#" ++ toString c.letter ++ toString c.number) ∧
    (∀ c : SeqCounter, c.number + 1 ≤ 9999 →
      (nextDealId c).2 = ⟨c.letter, c.number + 1⟩) ∧
    (∀ c : SeqCounter, c.number = 9999 → ¬ Char.ofNat (c.letter.toNat + 1) > 'Z' →
      (nextDealId c).2 = ⟨Char.ofNat (c.letter.toNat + 1), 1000⟩) ∧
    (∀ c : SeqCounter, c.number = 9999 → Char.ofNat (c.letter.toNat + 1) > 'Z' →
      (nextDealId c).2 = ⟨'A', 1000⟩) ∧
    nextDealId ⟨'A', 9999⟩ = ("#A9999", ⟨'B', 1000⟩) ∧
    idsFrom ⟨'A', 9999⟩ 2 = ["#A9999", "#B1000"] ∧
    (idsFrom ⟨'A', 9999⟩ 1000).length = 1000 ∧
    (idsFrom ⟨'A', 9999⟩ 1000).Chain' (· < ·) ∧
    (idsFrom ⟨'A', 9999⟩ 1000).Nodup := by
  have hB : chainIncB (idsFrom ⟨'A', 9999⟩ 1000) = true := by decide
  have hchain := chain'_of_chainIncB hB
  have hpair := List.chain'_iff_pairwise.mp hchain
  have hts : ∀ x : String, toString x = x := fun x => rfl
  refine ⟨rfl, ?_, ?_, ?_, ?_, by decide, by decide, by decide, hchain,
    hpair.imp (fun hlt => ne_of_lt hlt)⟩
  · intro c
    unfold nextDealId
    dsimp only
    split_ifs <;>
      simp [hts, String.append_empty, String.empty_append, String.append_assoc]
  · intro c h
    unfold nextDealId
    rw [if_neg (by omega)]
  · intro c h h2
    unfold nextDealId
    rw [if_pos (by omega), if_neg h2]
  · intro c h h2
    unfold nextDealId
    rw [if_pos (by omega), if_pos h2]

/-- C8 witness: the advancement rules instantiated at the boundary counters. -/
theorem C8_witness :
    (nextDealId ⟨'A', 9999⟩).2 = ⟨'B', 1000⟩ ∧
    (nextDealId ⟨'Z', 9999⟩).2 = ⟨'A', 1000⟩ := by
  constructor
  · exact C8_sequence.2.2.2.1 ⟨'A', 9999⟩ rfl (by decide)
  · exact C8_sequence.2.2.2.2.1 ⟨'Z', 9999⟩ rfl (by decide)

/-- C9 (amended): every mutation keeps stored amounts at 8-decimal
precision, but `toFixed(8)` rounds to nearest: crediting `0.123456789`
stores `0.12345679`, not `0.12345678`. -/
theorem C9_rounding {ownerId : Nat} {s : State} (op : Op) (hwf : wf s) :
    round8 (0.123456789 : ℚ) = (0.12345679 : ℚ) ∧
    (∀ p ∈ (step ownerId s op).balances, is8dec p.2) ∧
    (∀ p ∈ (step ownerId s op).deals, is8dec p.2.price ∧ is8dec p.2.locked) := by
  have hw := wf_step ownerId hwf op
  refine ⟨?_, hw.2.2.1, fun p hp => ⟨(hw.2.2.2 p hp).1, (hw.2.2.2 p hp).2.1⟩⟩
  have h1 : (0.123456789 : ℚ) = mkRat 123456789 1000000000 := by
    rw [Rat.mkRat_eq_divInt, Rat.divInt_eq_div]
    norm_num
  have h2 : (0.12345679 : ℚ) = mkRat 12345679 100000000 := by
    rw [Rat.mkRat_eq_divInt, Rat.divInt_eq_div]
    norm_num
  rw [h1, h2]
  decide

/-- C9 counterexample: crediting `0.123456789` through the administrative
path stores `0.12345679`, which differs from the claimed `0.12345678`. -/
theorem C9_counterexample :
    (0.123456789 : ℚ) = mkRat 123456789 1000000000 ∧
    getBal (givebalance initialState 1 1 7 (mkRat 123456789 1000000000)) 7
      = mkRat 12345679 100000000 ∧
    mkRat 12345679 100000000 = (0.12345679 : ℚ) ∧
    mkRat 12345679 100000000 ≠ (0.12345678 : ℚ) := by
  refine ⟨?_, by decide, ?_, ?_⟩
  · rw [Rat.mkRat_eq_divInt, Rat.divInt_eq_div]
    norm_num
  · rw [Rat.mkRat_eq_divInt, Rat.divInt_eq_div]
    norm_num
  · rw [Rat.mkRat_eq_divInt, Rat.divInt_eq_div]
    norm_num

/-- C9 witness: 8-decimal precision after a concrete `buy` step. -/
theorem C9_witness :
    wf sOpen ∧
    (∀ p ∈ (step 0 sOpen (Op.buy "#A7342" 2 "t1")).balances, is8dec p.2) :=
  ⟨by decide, (C9_rounding (Op.buy "#A7342" 2 "t1") (by decide)).2.1⟩

/-- C10: `buy` imposes no distinct-party requirement — on an open deal whose
seller's own balance covers the price, the seller may buy their own deal:
the call succeeds, records the seller as buyer, locks the price and debits
the seller exactly as for any other buyer. -/
theorem C10_self_buy {s : State} {dealId : String} {d : Deal} (now : String)
    (hwf : wf s) (hd : getKey dealId s.deals = some d) (hst : d.status = "open")
    (hbal : d.price ≤ getBal s d.seller) :
    ∃ s', buy s dealId d.seller now = .ok s' ∧
      getKey dealId s'.deals = some { d with
        buyer := some d.seller, locked := d.price, status := "in_progress",
        locked_at := some now } ∧
      getBal s' d.seller = getBal s d.seller - d.price := by
  have hD := wf_dealOK hwf hd
  have hsub : round8 (qSub (getBal s d.seller) d.price)
      = getBal s d.seller - d.price := by
    rw [qSub_eq]
    exact round8_eq_self (is8dec_sub (wf_is8dec_getBal hwf d.seller) hD.1)
  refine ⟨{ s with
      balances := setKey s.balances d.seller
        (round8 (qSub (getBal s d.seller) d.price)),
      deals := setKey s.deals dealId { d with
        buyer := some d.seller, locked := d.price, status := "in_progress",
        locked_at := some now } }, ?_, getKey_setKey_self _ _ _, ?_⟩
  · rw [buy_def d.seller now hd, if_neg (fun hc => hc hst),
      if_neg (not_lt.mpr hbal)]
  · show (getKey d.seller (setKey s.balances d.seller
      (round8 (qSub (getBal s d.seller) d.price)))).getD 0
      = getBal s d.seller - d.price
    rw [getKey_setKey_self]
    exact hsub

/-- C10 witness: on `sOpenSeller` the seller `1` buys their own deal. -/
theorem C10_witness :
    wf sOpenSeller ∧ getKey "#A7342" sOpenSeller.deals = some dealOpen ∧
    dealOpen.status = "open" ∧
    dealOpen.price ≤ getBal sOpenSeller dealOpen.seller ∧
    ∃ s', buy sOpenSeller "#A7342" dealOpen.seller "t1" = .ok s' ∧
      getKey "#A7342" s'.deals = some { dealOpen with
        buyer := some dealOpen.seller, locked := dealOpen.price,
        status := "in_progress", locked_at := some "t1" } ∧
      getBal s' dealOpen.seller = getBal sOpenSeller dealOpen.seller - dealOpen.price :=
  ⟨by decide, by decide, by decide, by decide,
    C10_self_buy "t1" (by decide)
      (by decide : getKey "#A7342" sOpenSeller.deals = some dealOpen)
      (by decide) (by decide)⟩

end GiftCastle
